import Mathlib

/-!
Shallow embedding of the read-state / unread-message logic of the
Google Chat MCP server (files `src/providers/google_chat/api/read_state.py`
and `src/providers/google_chat/tools/read_state_tools.py`).

Python's `datetime.fromisoformat` is an external collaborator: it is
modelled as an abstract parameter `fromiso : String → Option Int`
(`none` models a raised `ValueError`, `some t` a parsed instant on the
timeline, represented as an integer).  Remote RPC calls are modelled by
their results, with `Fetch.err` standing for a raised exception.
-/

/-- Python `str.startswith`, modelled on the character list of the string. -/
def pyStartswith (s pre : String) : Bool :=
  pre.data.isPrefixOf s.data

/-- Source: `_normalize_space_name` in `api/read_state.py` (lines 19-30). -/
def _normalize_space_name (space_name : String) : String :=
  if ¬ pyStartswith space_name "spaces/" then "spaces/" ++ space_name
  else space_name

/-- Python `timestamp_str.replace('Z', '+00:00')` on a character list:
every occurrence of the single character `Z` is replaced by `+00:00`. -/
def replaceZchars : List Char → List Char
  | [] => []
  | c :: rest =>
    if c = 'Z' then '+' :: '0' :: '0' :: ':' :: '0' :: '0' :: replaceZchars rest
    else c :: replaceZchars rest

/-- Python `timestamp_str.replace('Z', '+00:00')` lifted to `String`. -/
def pyReplaceZ (s : String) : String := String.mk (replaceZchars s.data)

/-- Source: `_parse_timestamp` in `tools/read_state_tools.py` (lines 25-43):
an empty (falsy) string yields `None`; otherwise `Z` is rewritten to
`+00:00` and the result is handed to `datetime.fromisoformat`, whose
`ValueError` is caught and turned into `None` (modelled by `fromiso`
returning `none`). -/
def _parse_timestamp (fromiso : String → Option Int) (timestamp_str : String) : Option Int :=
  if timestamp_str = "" then none
  else fromiso (pyReplaceZ timestamp_str)

/-- A message dictionary as consumed by the tools: `message.get('createTime')`
may be absent, `message.get('text', '')` defaults to the empty string, and
`message.get('space', {}).get('displayName')` may be absent. -/
structure Message where
  name : String
  createTime : Option String
  text : String
  space_displayName : Option String
  deriving Repr, DecidableEq

/-- The per-message unread test of `get_unread_messages_tool`
(lines 167-173): the message counts as unread iff its `createTime` is a
non-empty string, both it and the reference parse, and the parsed
creation instant strictly exceeds the parsed last-read instant. -/
def isUnreadMessage (fromiso : String → Option Int) (last_read_dt : Option Int)
    (message : Message) : Bool :=
  match message.createTime with
  | none => false
  | some create_time =>
    if create_time = "" then false
    else
      match _parse_timestamp fromiso create_time, last_read_dt with
      | some create_dt, some lr => decide (lr < create_dt)
      | _, _ => false

/-- The accumulation loop of `get_unread_messages_tool` (lines 166-173),
appending each unread message in input order. -/
def filterUnread (fromiso : String → Option Int) (last_read_dt : Option Int) :
    List Message → List Message
  | [] => []
  | message :: rest =>
    if isUnreadMessage fromiso last_read_dt message then
      message :: filterUnread fromiso last_read_dt rest
    else filterUnread fromiso last_read_dt rest

/-- Lines 147-151 (and 295-299): `read_state.get('lastReadTime')` falsy
(absent or empty) is replaced by the epoch string. -/
def effectiveLastReadTime (lastReadTime : Option String) : String :=
  match lastReadTime with
  | none => "1970-01-01T00:00:00.000Z"
  | some s => if s = "" then "1970-01-01T00:00:00.000Z" else s

/-- The dictionary returned by `get_unread_messages_tool` (lines 184-191). -/
structure UnreadMessagesResult where
  space_name : String
  space_display_name : Option String
  last_read_time : String
  unread_count : Nat
  messages : List Message
  has_more : Bool
  deriving Repr, DecidableEq

/-- Source: `get_unread_messages_tool` in `tools/read_state_tools.py`
(lines 140-191), with the read-state fetch and the message listing
supplied as data (`read_state_lastReadTime` is the `lastReadTime` field
of the fetched read state, `all_messages` the listed messages). -/
def get_unread_messages_tool (fromiso : String → Option Int) (space_name : String)
    (read_state_lastReadTime : Option String) (all_messages : List Message)
    (max_results : Nat) : UnreadMessagesResult :=
  let space_name := if ¬ pyStartswith space_name "spaces/" then "spaces/" ++ space_name
    else space_name
  let last_read_time := effectiveLastReadTime read_state_lastReadTime
  let last_read_dt := _parse_timestamp fromiso last_read_time
  let unread_messages := filterUnread fromiso last_read_dt all_messages
  let has_more := decide (max_results ≤ all_messages.length) &&
    decide (unread_messages.length = max_results)
  let space_display_name := match all_messages with
    | [] => none
    | m :: _ => m.space_displayName
  { space_name, space_display_name, last_read_time,
    unread_count := unread_messages.length, messages := unread_messages, has_more }

/-- Result of a remote call that can raise: `err` models a raised
exception. -/
inductive Fetch (α : Type) where
  | ok (a : α)
  | err
  deriving Repr, DecidableEq

/-- Whether a modelled remote call succeeded. -/
def Fetch.isOk {α} : Fetch α → Bool
  | .ok _ => true
  | .err => false

/-- A space dictionary from `list_chat_spaces`, together with the results
of the two per-space remote calls made by `get_unread_conversations_tool`
for it: `readState` is the `lastReadTime` field of
`get_space_read_state(space_name)` (or `err` if that call raised) and
`messages` the `messages` field of `list_space_messages(...)` (or `err`). -/
structure SpaceEntry where
  name : Option String
  spaceType : Option String
  displayName : Option String
  readState : Fetch (Option String)
  messages : Fetch (List Message)
  deriving Repr, DecidableEq

/-- A conversation summary appended at lines 333-341. -/
structure ConversationSummary where
  space_name : String
  display_name : String
  space_type : String
  last_read_time : String
  unread_count : Nat
  latest_message_time : Option String
  preview : Option String
  deriving Repr, DecidableEq

/-- One iteration of the message loop at lines 318-329: count an unread
message and, for the first unread one, record its creation time and a
preview of its text (first 100 characters plus `...` when longer; no
preview when the text is empty). -/
def unreadScanStep (fromiso : String → Option Int) (last_read_dt : Option Int)
    (st : Nat × Option String × Option String) (message : Message) :
    Nat × Option String × Option String :=
  match message.createTime with
  | none => st
  | some create_time =>
    if create_time = "" then st
    else
      match _parse_timestamp fromiso create_time, last_read_dt with
      | some create_dt, some lr =>
        if lr < create_dt then
          match st with
          | (c, none, pv) =>
            if message.text = "" then (c + 1, some create_time, pv)
            else (c + 1, some create_time,
              some (message.text.take 100 ++
                (if 100 < message.text.length then "..." else "")))
          | (c, some lt, pv) => (c + 1, some lt, pv)
        else st
      | _, _ => st

/-- The message loop of `get_unread_conversations_tool` (lines 313-329),
started from `unread_count = 0`, `latest_message_time = None`,
`latest_message_preview = None`. -/
def scanMessages (fromiso : String → Option Int) (last_read_dt : Option Int)
    (messages : List Message) : Nat × Option String × Option String :=
  messages.foldl (unreadScanStep fromiso last_read_dt) (0, none, none)

/-- The `try` body of the per-space scan (lines 292-345): a raised
read-state fetch or message listing is caught (`none`), and a summary is
produced only when the unread count is positive. -/
def checkSpace (fromiso : String → Option Int) (e : SpaceEntry) :
    Option ConversationSummary :=
  match e.readState with
  | .err => none
  | .ok lastReadTime =>
    let last_read_time := effectiveLastReadTime lastReadTime
    let last_read_dt := _parse_timestamp fromiso last_read_time
    match e.messages with
    | .err => none
    | .ok messages =>
      match scanMessages fromiso last_read_dt messages with
      | (unread_count, latest_message_time, latest_message_preview) =>
        if 0 < unread_count then
          some { space_name := e.name.getD "",
                 display_name := e.displayName.getD "Unnamed Space",
                 space_type := e.spaceType.getD "SPACE",
                 last_read_time, unread_count, latest_message_time,
                 preview := latest_message_preview }
        else none

/-- The two `continue` filters at lines 285-288, as one test: `true` iff
the space is neither a DM excluded by `include_dms=False` nor a non-DM
excluded by `include_spaces=False`. -/
def passesFilter (include_dms include_spaces : Bool) (e : SpaceEntry) : Bool :=
  let space_type := e.spaceType.getD "SPACE"
  !(space_type == "DIRECT_MESSAGE" && !include_dms) &&
    !(space_type != "DIRECT_MESSAGE" && !include_spaces)

/-- The space loop of `get_unread_conversations_tool` (lines 279-345):
the accumulator carries `total_scanned` and the list of summaries.  The
counter is incremented after the inclusion filter and regardless of the
outcome of `checkSpace`. -/
def scanSpacesLoop (fromiso : String → Option Int) (include_dms include_spaces : Bool) :
    List SpaceEntry → Nat × List ConversationSummary → Nat × List ConversationSummary
  | [], acc => acc
  | e :: rest, acc =>
    let space_type := e.spaceType.getD "SPACE"
    if space_type == "DIRECT_MESSAGE" && !include_dms then
      scanSpacesLoop fromiso include_dms include_spaces rest acc
    else if space_type != "DIRECT_MESSAGE" && !include_spaces then
      scanSpacesLoop fromiso include_dms include_spaces rest acc
    else
      match checkSpace fromiso e with
      | none => scanSpacesLoop fromiso include_dms include_spaces rest (acc.1 + 1, acc.2)
      | some s =>
        scanSpacesLoop fromiso include_dms include_spaces rest (acc.1 + 1, acc.2 ++ [s])

/-- The sort key of line 348 (`reverse=True`): `a` may precede `b` iff
`a`'s unread count is at least `b`'s. -/
def unreadGE (a b : ConversationSummary) : Prop :=
  b.unread_count ≤ a.unread_count

instance : DecidableRel unreadGE := fun a b =>
  inferInstanceAs (Decidable (b.unread_count ≤ a.unread_count))

instance : IsTotal ConversationSummary unreadGE :=
  ⟨fun a b => Nat.le_total b.unread_count a.unread_count⟩

instance : IsTrans ConversationSummary unreadGE :=
  ⟨fun _ _ _ h1 h2 => Nat.le_trans h2 h1⟩

/-- The dictionary returned by `get_unread_conversations_tool`
(lines 351-355). -/
structure ConversationsResult where
  total_spaces_scanned : Nat
  conversations_with_unread : Nat
  conversations : List ConversationSummary
  deriving Repr, DecidableEq

/-- Source: `get_unread_conversations_tool` in `tools/read_state_tools.py`
(lines 271-355): scan the spaces, then sort the collected summaries by
unread count descending with Python's stable sort (modelled by
`List.insertionSort unreadGE`, which is stable), truncate to
`max_results`, and report the counters. -/
def get_unread_conversations_tool (fromiso : String → Option Int)
    (all_spaces : List SpaceEntry) (include_dms include_spaces : Bool)
    (max_results : Nat) : ConversationsResult :=
  match scanSpacesLoop fromiso include_dms include_spaces all_spaces (0, []) with
  | (total_scanned, conversations_with_unread) =>
    let sorted := conversations_with_unread.insertionSort unreadGE
    let final := sorted.take max_results
    { total_spaces_scanned := total_scanned,
      conversations_with_unread := final.length,
      conversations := final }

/-- Concrete model of `datetime.fromisoformat` on the handful of strings
used in witnesses and counterexamples, with their real Unix timestamps;
every other string fails to parse. -/
def fromisoTable (s : String) : Option Int :=
  if s = "1970-01-01T00:00:00.000+00:00" then some 0
  else if s = "2023-12-31T23:50:00.000+00:00" then some 1704066600
  else if s = "2024-01-01T00:00:00.000+00:00" then some 1704067200
  else if s = "2024-01-01T00:05:00.000+00:00" then some 1704067500
  else none

/-- A list is a `isPrefixOf` of itself followed by anything. -/
theorem isPrefixOf_append_self (l t : List Char) : l.isPrefixOf (l ++ t) = true := by
  induction l with
  | nil => simp [List.isPrefixOf]
  | cons c cs ih => simp [List.isPrefixOf, ih]

/-- The classification loop is `List.filter` with the per-message test. -/
theorem filterUnread_eq_filter (fromiso : String → Option Int) (last_read_dt : Option Int)
    (M : List Message) :
    filterUnread fromiso last_read_dt M = M.filter (isUnreadMessage fromiso last_read_dt) := by
  induction M with
  | nil => rfl
  | cons m rest ih =>
    by_cases h : isUnreadMessage fromiso last_read_dt m
    · simp [filterUnread, List.filter_cons, h, ih]
    · simp [filterUnread, List.filter_cons, h, ih]

/-- When the message parses and the reference parsed, the per-message test
is the strict comparison of the parsed instants. -/
theorem isUnreadMessage_parsed (fromiso : String → Option Int) (R t : Int) (m : Message)
    (ct : String) (h1 : m.createTime = some ct) (h2 : ct ≠ "")
    (h3 : _parse_timestamp fromiso ct = some t) :
    isUnreadMessage fromiso (some R) m = decide (R < t) := by
  simp [isUnreadMessage, h1, h2, h3]

/-- A message whose timestamp fails to parse is never classified unread. -/
theorem isUnreadMessage_of_parse_none (fromiso : String → Option Int)
    (last_read_dt : Option Int) (m : Message) (ct : String)
    (h1 : m.createTime = some ct) (h2 : _parse_timestamp fromiso ct = none) :
    isUnreadMessage fromiso last_read_dt m = false := by
  by_cases he : ct = ""
  · simp [isUnreadMessage, h1, he]
  · simp [isUnreadMessage, h1, he, h2]

/-- When the reference timestamp failed to parse, no message is
classified unread. -/
theorem isUnreadMessage_of_lrd_none (fromiso : String → Option Int) (m : Message) :
    isUnreadMessage fromiso none m = false := by
  cases h1 : m.createTime with
  | none => simp [isUnreadMessage, h1]
  | some ct =>
    by_cases he : ct = ""
    · simp [isUnreadMessage, h1, he]
    · cases hp : _parse_timestamp fromiso ct <;> simp [isUnreadMessage, h1, he, hp]

/-- A message not classified unread leaves the aggregation state alone. -/
theorem unreadScanStep_of_not_unread (fromiso : String → Option Int)
    (last_read_dt : Option Int) (st : Nat × Option String × Option String) (m : Message)
    (h : isUnreadMessage fromiso last_read_dt m = false) :
    unreadScanStep fromiso last_read_dt st m = st := by
  cases h1 : m.createTime with
  | none => simp [unreadScanStep, h1]
  | some ct =>
    by_cases he : ct = ""
    · simp [unreadScanStep, h1, he]
    · cases hp : _parse_timestamp fromiso ct with
      | none => simp [unreadScanStep, h1, he, hp]
      | some create_dt =>
        cases hl : last_read_dt with
        | none => simp [unreadScanStep, h1, he, hp]
        | some lr =>
          simp [isUnreadMessage, h1, he, hp, hl] at h
          simp [unreadScanStep, h1, he, hp, hl, h]

/-- An unread message increments the counter by one. -/
theorem unreadScanStep_count_of_unread (fromiso : String → Option Int)
    (last_read_dt : Option Int) (st : Nat × Option String × Option String) (m : Message)
    (h : isUnreadMessage fromiso last_read_dt m = true) :
    (unreadScanStep fromiso last_read_dt st m).1 = st.1 + 1 := by
  cases h1 : m.createTime with
  | none => simp [isUnreadMessage, h1] at h
  | some ct =>
    by_cases he : ct = ""
    · simp [isUnreadMessage, h1, he] at h
    · cases hp : _parse_timestamp fromiso ct with
      | none => simp [isUnreadMessage, h1, he, hp] at h
      | some create_dt =>
        cases hl : last_read_dt with
        | none => simp [isUnreadMessage, h1, he, hp, hl] at h
        | some lr =>
          simp [isUnreadMessage, h1, he, hp, hl] at h
          obtain ⟨c, lt, pv⟩ := st
          cases lt <;> by_cases htx : m.text = "" <;>
            simp [unreadScanStep, h1, he, hp, hl, h, htx]

/-- Once the first unread message has been recorded, later steps keep the
recorded time and preview. -/
theorem unreadScanStep_keeps_latest (fromiso : String → Option Int)
    (last_read_dt : Option Int) (c : Nat) (x : String) (pv : Option String) (m : Message) :
    (unreadScanStep fromiso last_read_dt (c, some x, pv) m).2
      = (some x, pv) := by
  cases h1 : m.createTime with
  | none => simp [unreadScanStep, h1]
  | some ct =>
    by_cases he : ct = ""
    · simp [unreadScanStep, h1, he]
    · cases hp : _parse_timestamp fromiso ct with
      | none => simp [unreadScanStep, h1, he, hp]
      | some create_dt =>
        cases hl : last_read_dt with
        | none => simp [unreadScanStep, h1, he, hp]
        | some lr =>
          by_cases hlt : lr < create_dt <;> simp [unreadScanStep, h1, he, hp, hl, hlt]

/-- The aggregation count equals the number of messages passing the
per-message unread test, from any start state. -/
theorem foldl_unreadScanStep_count (fromiso : String → Option Int)
    (last_read_dt : Option Int) (M : List Message) :
    ∀ st : Nat × Option String × Option String,
      (M.foldl (unreadScanStep fromiso last_read_dt) st).1
        = st.1 + (M.filter (isUnreadMessage fromiso last_read_dt)).length := by
  induction M with
  | nil => intro st; simp
  | cons m rest ih =>
    intro st
    by_cases h : isUnreadMessage fromiso last_read_dt m
    · rw [List.foldl_cons, ih, unreadScanStep_count_of_unread fromiso last_read_dt st m h,
        List.filter_cons]
      simp only [h, if_true, List.length_cons]
      omega
    · rw [List.foldl_cons,
        unreadScanStep_of_not_unread fromiso last_read_dt st m (by simpa using h), ih,
        List.filter_cons]
      simp [h]

/-- The count of the message loop of `get_unread_conversations_tool` is
the number of messages passing the unread test. -/
theorem scanMessages_count (fromiso : String → Option Int) (last_read_dt : Option Int)
    (M : List Message) :
    (scanMessages fromiso last_read_dt M).1
      = (M.filter (isUnreadMessage fromiso last_read_dt)).length := by
  simpa [scanMessages] using foldl_unreadScanStep_count fromiso last_read_dt M (0, none, none)

/-- Once a latest time is recorded, the rest of the message loop never
changes the recorded time or preview. -/
theorem foldl_unreadScanStep_keeps_latest (fromiso : String → Option Int)
    (last_read_dt : Option Int) (M : List Message) :
    ∀ (c : Nat) (x : String) (pv : Option String),
      (M.foldl (unreadScanStep fromiso last_read_dt) (c, some x, pv)).2 = (some x, pv) := by
  induction M with
  | nil => intro c x pv; simp
  | cons m rest ih =>
    intro c x pv
    have hk := unreadScanStep_keeps_latest fromiso last_read_dt c x pv m
    have h2 := Prod.mk.eta (p := unreadScanStep fromiso last_read_dt (c, some x, pv) m)
    rw [List.foldl_cons, ← h2, hk]
    exact ih _ x pv

/-- Messages failing the unread test leave the loop state untouched. -/
theorem foldl_unreadScanStep_of_none_unread (fromiso : String → Option Int)
    (last_read_dt : Option Int) (M : List Message)
    (h : ∀ m ∈ M, isUnreadMessage fromiso last_read_dt m = false) :
    ∀ st, M.foldl (unreadScanStep fromiso last_read_dt) st = st := by
  induction M with
  | nil => intro st; simp
  | cons m rest ih =>
    intro st
    rw [List.foldl_cons, unreadScanStep_of_not_unread fromiso last_read_dt st m
      (h m (List.mem_cons_self m rest))]
    exact ih (fun x hx => h x (List.mem_cons_of_mem m hx)) st

/-- One unfolding of the space loop, phrased with `passesFilter`. -/
theorem scanSpacesLoop_cons (fromiso : String → Option Int) (dms sps : Bool)
    (e : SpaceEntry) (rest : List SpaceEntry) (acc : Nat × List ConversationSummary) :
    scanSpacesLoop fromiso dms sps (e :: rest) acc
      = if passesFilter dms sps e then
          (match checkSpace fromiso e with
           | none => scanSpacesLoop fromiso dms sps rest (acc.1 + 1, acc.2)
           | some s => scanSpacesLoop fromiso dms sps rest (acc.1 + 1, acc.2 ++ [s]))
        else scanSpacesLoop fromiso dms sps rest acc := by
  by_cases h1 : ((e.spaceType.getD "SPACE") == "DIRECT_MESSAGE" && !dms) = true
  · simp [scanSpacesLoop, passesFilter, h1]
  · by_cases h2 : ((e.spaceType.getD "SPACE") != "DIRECT_MESSAGE" && !sps) = true
    · simp [scanSpacesLoop, passesFilter, h1, h2]
    · simp [scanSpacesLoop, passesFilter, h1, h2]

/-- The space loop from an arbitrary accumulator is the loop from the
empty accumulator, shifted. -/
theorem scanSpacesLoop_shift (fromiso : String → Option Int) (dms sps : Bool)
    (l : List SpaceEntry) :
    ∀ (t : Nat) (c : List ConversationSummary),
      scanSpacesLoop fromiso dms sps l (t, c)
        = (t + (scanSpacesLoop fromiso dms sps l (0, [])).1,
           c ++ (scanSpacesLoop fromiso dms sps l (0, [])).2) := by
  induction l with
  | nil => intro t c; simp [scanSpacesLoop]
  | cons e rest ih =>
    intro t c
    rw [scanSpacesLoop_cons, scanSpacesLoop_cons]
    by_cases hp : passesFilter dms sps e
    · rw [if_pos hp, if_pos hp]
      cases hcs : checkSpace fromiso e with
      | none =>
        dsimp only
        rw [ih (t + 1) c, ih (0 + 1) []]
        simp [Nat.add_assoc]
      | some s =>
        dsimp only
        rw [ih (t + 1) (c ++ [s]), ih (0 + 1) ([] ++ [s])]
        simp [Nat.add_assoc]
    · rw [if_neg hp, if_neg hp]
      exact ih t c

/-- The scanned-spaces counter counts exactly the spaces passing the
inclusion filter, whatever the per-space fetches did. -/
theorem scanSpacesLoop_total (fromiso : String → Option Int) (dms sps : Bool)
    (l : List SpaceEntry) :
    (scanSpacesLoop fromiso dms sps l (0, [])).1
      = (l.filter (passesFilter dms sps)).length := by
  induction l with
  | nil => simp [scanSpacesLoop]
  | cons e rest ih =>
    rw [scanSpacesLoop_cons]
    by_cases hp : passesFilter dms sps e
    · rw [if_pos hp]
      cases hcs : checkSpace fromiso e with
      | none =>
        dsimp only
        rw [scanSpacesLoop_shift fromiso dms sps rest (0 + 1) []]
        simp [List.filter_cons, hp, ih]
        omega
      | some s =>
        dsimp only
        rw [scanSpacesLoop_shift fromiso dms sps rest (0 + 1) ([] ++ [s])]
        simp [List.filter_cons, hp, ih]
        omega
    · rw [if_neg hp, ih]
      simp [List.filter_cons, hp]

/-- The summaries collected by the space loop, in scan order: one for
each space passing the filter whose `try` body produced one. -/
theorem scanSpacesLoop_convs (fromiso : String → Option Int) (dms sps : Bool)
    (l : List SpaceEntry) :
    (scanSpacesLoop fromiso dms sps l (0, [])).2
      = l.filterMap (fun e => if passesFilter dms sps e then checkSpace fromiso e else none) := by
  induction l with
  | nil => simp [scanSpacesLoop]
  | cons e rest ih =>
    rw [scanSpacesLoop_cons]
    by_cases hp : passesFilter dms sps e
    · rw [if_pos hp]
      cases hcs : checkSpace fromiso e with
      | none =>
        dsimp only
        rw [scanSpacesLoop_shift fromiso dms sps rest (0 + 1) []]
        simp [List.filterMap_cons, hp, hcs, ih]
      | some s =>
        dsimp only
        rw [scanSpacesLoop_shift fromiso dms sps rest (0 + 1) ([] ++ [s])]
        simp [List.filterMap_cons, hp, hcs, ih]
    · rw [if_neg hp, ih]
      simp [List.filterMap_cons, hp]

/-- Unfolding of `get_unread_conversations_tool` through the loop, the
sort and the truncation. -/
theorem get_unread_conversations_tool_eq (fromiso : String → Option Int)
    (all_spaces : List SpaceEntry) (dms sps : Bool) (mr : Nat) :
    get_unread_conversations_tool fromiso all_spaces dms sps mr
      = { total_spaces_scanned := (scanSpacesLoop fromiso dms sps all_spaces (0, [])).1,
          conversations_with_unread :=
            (((scanSpacesLoop fromiso dms sps all_spaces (0, [])).2.insertionSort
              unreadGE).take mr).length,
          conversations :=
            ((scanSpacesLoop fromiso dms sps all_spaces (0, [])).2.insertionSort
              unreadGE).take mr } := by
  rcases h : scanSpacesLoop fromiso dms sps all_spaces (0, []) with ⟨t, c⟩
  simp [get_unread_conversations_tool, h]

/-- Inserting a summary does not disturb the filter at a different
unread count. -/
theorem orderedInsert_filter_of_ne (a : ConversationSummary) (k : Nat)
    (h : a.unread_count ≠ k) (l : List ConversationSummary) :
    (l.orderedInsert unreadGE a).filter (fun c => c.unread_count == k)
      = l.filter (fun c => c.unread_count == k) := by
  induction l with
  | nil => simp [List.orderedInsert, h]
  | cons b l ih =>
    by_cases hr : unreadGE a b
    · rw [List.orderedInsert, if_pos hr, List.filter_cons]
      simp [h]
    · rw [List.orderedInsert, if_neg hr, List.filter_cons, List.filter_cons, ih]

/-- Inserting a summary puts it in front of every present summary with
the same unread count: skipped summaries have a strictly larger count. -/
theorem orderedInsert_filter_of_eq (a : ConversationSummary)
    (l : List ConversationSummary) :
    (l.orderedInsert unreadGE a).filter (fun c => c.unread_count == a.unread_count)
      = a :: l.filter (fun c => c.unread_count == a.unread_count) := by
  induction l with
  | nil => simp [List.orderedInsert]
  | cons b l ih =>
    by_cases hr : unreadGE a b
    · rw [List.orderedInsert, if_pos hr, List.filter_cons]
      simp
    · have hb : (b.unread_count == a.unread_count) = false := by
        simp only [unreadGE, not_le] at hr
        simp [Nat.ne_of_gt hr]
      rw [List.orderedInsert, if_neg hr, List.filter_cons, hb, List.filter_cons, hb]
      simpa using ih

/-- Stability of the modelled sort: for every unread count `k`, the
summaries with that count keep their original relative order. -/
theorem insertionSort_filter_stable (k : Nat) (l : List ConversationSummary) :
    ((l.insertionSort unreadGE).filter (fun c => c.unread_count == k))
      = l.filter (fun c => c.unread_count == k) := by
  induction l with
  | nil => rfl
  | cons a l ih =>
    rw [List.insertionSort]
    by_cases hk : a.unread_count = k
    · subst hk
      rw [orderedInsert_filter_of_eq, ih, List.filter_cons]
      simp
    · rw [orderedInsert_filter_of_ne a k hk, ih, List.filter_cons]
      simp [hk]

/-- Length of the filter-then-check summary extraction. -/
theorem length_filterMap_checkSpace (fromiso : String → Option Int) (dms sps : Bool)
    (l : List SpaceEntry) :
    (l.filterMap (fun e => if passesFilter dms sps e then checkSpace fromiso e else none)).length
      = (l.filter (fun e => passesFilter dms sps e && (checkSpace fromiso e).isSome)).length := by
  induction l with
  | nil => rfl
  | cons e rest ih =>
    by_cases hp : passesFilter dms sps e
    · cases hcs : checkSpace fromiso e with
      | none => simp [List.filterMap_cons, List.filter_cons, hp, hcs, ih]
      | some s => simp [List.filterMap_cons, List.filter_cons, hp, hcs, ih]
    · simp [List.filterMap_cons, List.filter_cons, hp, ih]

/-- C8: the space-name normalizer is idempotent and total (it is a total
function of the model, so it cannot raise), and its output always starts
with the prefix `spaces/` in the sense of Python's `startswith`. -/
theorem normalize_space_name_idempotent (s : String) :
    _normalize_space_name (_normalize_space_name s) = _normalize_space_name s
    ∧ pyStartswith (_normalize_space_name s) "spaces/" = true := by
  cases hb : pyStartswith s "spaces/" with
  | true =>
    have h1 : _normalize_space_name s = s := by simp [_normalize_space_name, hb]
    rw [h1]
    exact ⟨h1, hb⟩
  | false =>
    have h1 : _normalize_space_name s = "spaces/" ++ s := by
      simp [_normalize_space_name, hb]
    have h2 : pyStartswith ("spaces/" ++ s) "spaces/" = true := by
      unfold pyStartswith
      rw [String.data_append]
      exact isPrefixOf_append_self _ _
    refine ⟨?_, h1 ▸ h2⟩
    rw [h1]
    simp [_normalize_space_name, h2]

/-- C1: with a parsing reference timestamp and messages whose
`createTime` strings all parse (with parsed instants `τ`), the unread
classification used by `get_unread_messages_tool` returns exactly the
order-preserving subsequence (`List.filter`) of messages whose parsed
`createTime` strictly exceeds the parsed reference `R`, and the unread
counter of `get_unread_conversations_tool` counts that same subsequence. -/
theorem unread_classification_strict (fromiso : String → Option Int) (τ : Message → Int)
    (R : Int) (sn lrt : String) (M : List Message) (mr : Nat)
    (hlrt : lrt ≠ "")
    (hR : _parse_timestamp fromiso lrt = some R)
    (hM : ∀ m ∈ M, ∃ ct, m.createTime = some ct ∧ ct ≠ ""
      ∧ _parse_timestamp fromiso ct = some (τ m)) :
    (get_unread_messages_tool fromiso sn (some lrt) M mr).messages
        = M.filter (fun m => decide (R < τ m))
    ∧ (scanMessages fromiso (some R) M).1
        = (M.filter (fun m => decide (R < τ m))).length := by
  have he : effectiveLastReadTime (some lrt) = lrt := by
    simp [effectiveLastReadTime, hlrt]
  have hfilter : M.filter (isUnreadMessage fromiso (some R))
      = M.filter (fun m => decide (R < τ m)) := by
    apply List.filter_congr
    intro m hm
    obtain ⟨ct, h1, h2, h3⟩ := hM m hm
    exact isUnreadMessage_parsed fromiso R (τ m) m ct h1 h2 h3
  constructor
  · simp only [get_unread_messages_tool, he, hR]
    rw [filterUnread_eq_filter, hfilter]
  · rw [scanMessages_count, hfilter]

def wMsgA : Message :=
  { name := "m1", createTime := some "2024-01-01T00:05:00.000Z", text := "hello",
    space_displayName := none }

def wMsgOld : Message :=
  { name := "m3", createTime := some "2023-12-31T23:50:00.000Z", text := "old",
    space_displayName := none }

/-- Parsed instants of the witness messages. -/
def wTau : Message → Int := fun m => if m.name = "m1" then 1704067500 else 1704066600

/-- Witness for C1 at a concrete space: one message strictly after the
reference, one exactly at it (excluded by strictness). -/
theorem unread_classification_strict_witness :
    ("2023-12-31T23:50:00.000Z" ≠ "")
    ∧ _parse_timestamp fromisoTable "2023-12-31T23:50:00.000Z" = some 1704066600
    ∧ ((get_unread_messages_tool fromisoTable "spaces/x" (some "2023-12-31T23:50:00.000Z")
          [wMsgA, wMsgOld] 50).messages
        = [wMsgA, wMsgOld].filter (fun m => decide ((1704066600 : Int) < wTau m))
      ∧ (scanMessages fromisoTable (some 1704066600) [wMsgA, wMsgOld]).1
        = ([wMsgA, wMsgOld].filter (fun m => decide ((1704066600 : Int) < wTau m))).length) :=
  ⟨by decide, by decide,
    unread_classification_strict fromisoTable wTau 1704066600 "spaces/x"
      "2023-12-31T23:50:00.000Z" [wMsgA, wMsgOld] 50 (by decide) (by decide)
      (by
        intro m hm
        rcases List.mem_cons.mp hm with h | h
        · subst h; exact ⟨_, rfl, by decide, by decide⟩
        · rcases List.mem_cons.mp h with h2 | h2
          · subst h2; exact ⟨_, rfl, by decide, by decide⟩
          · cases h2)⟩

def mEpochW : Message :=
  { name := "m0", createTime := some "1970-01-01T00:00:00.000Z", text := "hi",
    space_displayName := none }

/-- C2 counterexample: a message whose `createTime` parses successfully
and equals the substituted epoch instant is NOT returned (strict
comparison), so classifying against an absent `lastReadTime` does not
return all of `M`. -/
theorem classify_absent_counterexample :
    _parse_timestamp fromisoTable "1970-01-01T00:00:00.000Z" = some 0
    ∧ (get_unread_messages_tool fromisoTable "spaces/x" none [mEpochW] 50).messages ≠ [mEpochW]
    ∧ (get_unread_messages_tool fromisoTable "spaces/x" none [mEpochW] 50).messages = [] :=
  ⟨by decide, by decide, by decide⟩

/-- C2 as amended: with an absent `lastReadTime` the epoch string
`1970-01-01T00:00:00.000Z` is substituted, and all of `M` is returned
provided every message's parsed `createTime` strictly exceeds the parsed
epoch instant (messages at or before the epoch are excluded). -/
theorem classify_absent_epoch (fromiso : String → Option Int) (τ : Message → Int)
    (e0 : Int) (sn : String) (M : List Message) (mr : Nat)
    (h0 : fromiso "1970-01-01T00:00:00.000+00:00" = some e0)
    (hM : ∀ m ∈ M, ∃ ct, m.createTime = some ct ∧ ct ≠ ""
      ∧ _parse_timestamp fromiso ct = some (τ m) ∧ e0 < τ m) :
    (get_unread_messages_tool fromiso sn none M mr).last_read_time
        = "1970-01-01T00:00:00.000Z"
    ∧ (get_unread_messages_tool fromiso sn none M mr).messages = M := by
  have hrep : pyReplaceZ "1970-01-01T00:00:00.000Z" = "1970-01-01T00:00:00.000+00:00" := by
    decide
  have hparse : _parse_timestamp fromiso "1970-01-01T00:00:00.000Z" = some e0 := by
    simp [_parse_timestamp, hrep, h0]
  constructor
  · rfl
  · simp only [get_unread_messages_tool, effectiveLastReadTime, hparse]
    rw [filterUnread_eq_filter]
    apply List.filter_eq_self.mpr
    intro m hm
    obtain ⟨ct, h1, h2, h3, h4⟩ := hM m hm
    rw [isUnreadMessage_parsed fromiso e0 (τ m) m ct h1 h2 h3]
    simpa using h4

/-- Witness for the amended C2: a post-epoch message is returned and the
epoch string is reported as the effective last-read time. -/
theorem classify_absent_epoch_witness :
    fromisoTable "1970-01-01T00:00:00.000+00:00" = some 0
    ∧ ((get_unread_messages_tool fromisoTable "spaces/x" none [wMsgA] 50).last_read_time
        = "1970-01-01T00:00:00.000Z"
      ∧ (get_unread_messages_tool fromisoTable "spaces/x" none [wMsgA] 50).messages
        = [wMsgA]) :=
  ⟨by decide,
    classify_absent_epoch fromisoTable wTau 0 "spaces/x" [wMsgA] 50 (by decide)
      (by
        intro m hm
        rcases List.mem_cons.mp hm with h | h
        · subst h; exact ⟨_, rfl, by decide, by decide, by decide⟩
        · cases h)⟩

/-- C7: a message whose `createTime` fails to parse is excluded from the
unread result, and the classification of the remaining messages is
exactly what it would have been without that message, in both tools'
loops (the model functions are total: the parse failure is absorbed, not
raised). -/
theorem parse_failure_skips_message (fromiso : String → Option Int) (lrd : Option Int)
    (M1 M2 : List Message) (m : Message) (ct : String)
    (hct : m.createTime = some ct)
    (hfail : _parse_timestamp fromiso ct = none) :
    filterUnread fromiso lrd (M1 ++ m :: M2) = filterUnread fromiso lrd (M1 ++ M2)
    ∧ scanMessages fromiso lrd (M1 ++ m :: M2) = scanMessages fromiso lrd (M1 ++ M2) := by
  have hfalse := isUnreadMessage_of_parse_none fromiso lrd m ct hct hfail
  constructor
  · rw [filterUnread_eq_filter, filterUnread_eq_filter]
    simp [List.filter_append, List.filter_cons, hfalse]
  · unfold scanMessages
    rw [List.foldl_append, List.foldl_append, List.foldl_cons,
      unreadScanStep_of_not_unread fromiso lrd _ m hfalse]

def wMsgBad : Message :=
  { name := "bad", createTime := some "garbage", text := "x", space_displayName := none }

/-- Witness for C7: an unparseable message between two parseable ones is
dropped and the rest classify as without it. -/
theorem parse_failure_skips_message_witness :
    wMsgBad.createTime = some "garbage"
    ∧ _parse_timestamp fromisoTable "garbage" = none
    ∧ (filterUnread fromisoTable (some 0) ([wMsgA] ++ wMsgBad :: [wMsgOld])
        = filterUnread fromisoTable (some 0) ([wMsgA] ++ [wMsgOld])
      ∧ scanMessages fromisoTable (some 0) ([wMsgA] ++ wMsgBad :: [wMsgOld])
        = scanMessages fromisoTable (some 0) ([wMsgA] ++ [wMsgOld])) :=
  ⟨rfl, by decide,
    parse_failure_skips_message fromisoTable (some 0) [wMsgA] [wMsgOld] wMsgBad
      "garbage" rfl (by decide)⟩

/-- No message passes the unread test when the reference failed to
parse. -/
theorem filter_unread_lrd_none (fromiso : String → Option Int) (M : List Message) :
    M.filter (isUnreadMessage fromiso none) = [] := by
  induction M with
  | nil => rfl
  | cons m rest ih => simp [List.filter_cons, isUnreadMessage_of_lrd_none, ih]

/-- The conversation message loop finds nothing when the reference
failed to parse. -/
theorem scanMessages_lrd_none (fromiso : String → Option Int) (msgs : List Message) :
    scanMessages fromiso none msgs = (0, none, none) :=
  foldl_unreadScanStep_of_none_unread fromiso none msgs
    (fun m _ => isUnreadMessage_of_lrd_none fromiso m) (0, none, none)

/-- C10: a present, non-empty but unparseable `lastReadTime` does not get
the epoch fallback: `get_unread_messages_tool` reports zero unread
messages and an empty list, and `get_unread_conversations_tool` omits
the space. -/
theorem unparseable_last_read_reports_none (fromiso : String → Option Int)
    (sn s : String) (mr : Nat) (M msgs : List Message) (e : SpaceEntry)
    (hs : s ≠ "")
    (hparse : _parse_timestamp fromiso s = none)
    (hrs : e.readState = Fetch.ok (some s))
    (hmsgs : e.messages = Fetch.ok msgs) :
    (get_unread_messages_tool fromiso sn (some s) M mr).unread_count = 0
    ∧ (get_unread_messages_tool fromiso sn (some s) M mr).messages = []
    ∧ checkSpace fromiso e = none := by
  have he : effectiveLastReadTime (some s) = s := by simp [effectiveLastReadTime, hs]
  refine ⟨?_, ?_, ?_⟩
  · simp only [get_unread_messages_tool, he, hparse]
    rw [filterUnread_eq_filter, filter_unread_lrd_none]
    rfl
  · simp only [get_unread_messages_tool, he, hparse]
    rw [filterUnread_eq_filter, filter_unread_lrd_none]
  · simp [checkSpace, hrs, hmsgs, he, hparse, scanMessages_lrd_none]

def wEntryBadTs : SpaceEntry :=
  { name := some "spaces/c"
    spaceType := some "SPACE"
    displayName := some "C"
    readState := Fetch.ok (some "not-a-timestamp")
    messages := Fetch.ok [wMsgA] }

/-- Witness for C10: a space whose stored `lastReadTime` is present but
unparseable reports no unread messages and is omitted from the scan. -/
theorem unparseable_last_read_reports_none_witness :
    ("not-a-timestamp" ≠ "")
    ∧ _parse_timestamp fromisoTable "not-a-timestamp" = none
    ∧ wEntryBadTs.readState = Fetch.ok (some "not-a-timestamp")
    ∧ wEntryBadTs.messages = Fetch.ok [wMsgA]
    ∧ ((get_unread_messages_tool fromisoTable "spaces/c" (some "not-a-timestamp")
          [wMsgA] 50).unread_count = 0
      ∧ (get_unread_messages_tool fromisoTable "spaces/c" (some "not-a-timestamp")
          [wMsgA] 50).messages = []
      ∧ checkSpace fromisoTable wEntryBadTs = none) :=
  ⟨by decide, by decide, rfl, rfl,
    unparseable_last_read_reports_none fromisoTable "spaces/c" "not-a-timestamp" 50
      [wMsgA] [wMsgA] wEntryBadTs (by decide) (by decide) rfl rfl⟩

/-- C3: `total_spaces_scanned` counts exactly the spaces passing the
DM/space inclusion filter, for every assignment of per-space fetch
results — including entries whose read-state fetch or message listing is
`Fetch.err` — because the counter is incremented after the filter and
independently of the outcome of the per-space `try` body. -/
theorem total_spaces_scanned_counts_filter (fromiso : String → Option Int)
    (all_spaces : List SpaceEntry) (dms sps : Bool) (mr : Nat) :
    (get_unread_conversations_tool fromiso all_spaces dms sps mr).total_spaces_scanned
      = (all_spaces.filter (passesFilter dms sps)).length := by
  rw [get_unread_conversations_tool_eq]
  exact scanSpacesLoop_total fromiso dms sps all_spaces

/-- C4: a space whose read-state fetch or message listing raises is
skipped: it contributes no summary, the remaining spaces are scanned as
if it were absent, and the whole scan still returns (the model is total;
only the counter sees the failed space). -/
theorem per_space_failure_skipped (fromiso : String → Option Int) (dms sps : Bool)
    (mr : Nat) (S1 S2 : List SpaceEntry) (e : SpaceEntry)
    (hpass : passesFilter dms sps e = true)
    (herr : e.readState = Fetch.err ∨ e.messages = Fetch.err) :
    (get_unread_conversations_tool fromiso (S1 ++ e :: S2) dms sps mr).conversations
      = (get_unread_conversations_tool fromiso (S1 ++ S2) dms sps mr).conversations
    ∧ (get_unread_conversations_tool fromiso (S1 ++ e :: S2) dms sps mr).total_spaces_scanned
      = (get_unread_conversations_tool fromiso (S1 ++ S2) dms sps mr).total_spaces_scanned
        + 1 := by
  have hcs : checkSpace fromiso e = none := by
    rcases herr with h | h
    · simp [checkSpace, h]
    · cases hr : e.readState with
      | err => simp [checkSpace, hr]
      | ok lr => simp [checkSpace, hr, h]
  constructor
  · rw [get_unread_conversations_tool_eq, get_unread_conversations_tool_eq]
    dsimp only
    rw [scanSpacesLoop_convs, scanSpacesLoop_convs, List.filterMap_append,
      List.filterMap_append, List.filterMap_cons]
    simp [hpass, hcs]
  · rw [get_unread_conversations_tool_eq, get_unread_conversations_tool_eq]
    dsimp only
    rw [scanSpacesLoop_total, scanSpacesLoop_total]
    simp [List.filter_append, List.filter_cons, hpass]
    omega

def wEntryA : SpaceEntry :=
  { name := some "spaces/a"
    spaceType := some "SPACE"
    displayName := some "A"
    readState := Fetch.ok (some "2023-12-31T23:50:00.000Z")
    messages := Fetch.ok [wMsgA] }

def wEntryErr : SpaceEntry :=
  { name := some "spaces/e"
    spaceType := some "SPACE"
    displayName := some "E"
    readState := Fetch.err
    messages := Fetch.ok [wMsgA] }

def wEntryB : SpaceEntry :=
  { name := some "spaces/b"
    spaceType := some "DIRECT_MESSAGE"
    displayName := some "B"
    readState := Fetch.ok none
    messages := Fetch.ok [wMsgOld] }

/-- Witness for C4: an erroring space between two healthy ones changes
only the scanned counter. -/
theorem per_space_failure_skipped_witness :
    passesFilter true true wEntryErr = true
    ∧ wEntryErr.readState = Fetch.err
    ∧ ((get_unread_conversations_tool fromisoTable ([wEntryA] ++ wEntryErr :: [wEntryB])
          true true 20).conversations
        = (get_unread_conversations_tool fromisoTable ([wEntryA] ++ [wEntryB])
          true true 20).conversations
      ∧ (get_unread_conversations_tool fromisoTable ([wEntryA] ++ wEntryErr :: [wEntryB])
          true true 20).total_spaces_scanned
        = (get_unread_conversations_tool fromisoTable ([wEntryA] ++ [wEntryB])
          true true 20).total_spaces_scanned + 1) :=
  ⟨by decide, rfl,
    per_space_failure_skipped fromisoTable true true 20 [wEntryA] [wEntryB] wEntryErr
      (by decide) (Or.inl rfl)⟩

/-- C5: the returned conversations list has length `min n max_results`,
where `n` is the number of included, non-errored spaces whose `try` body
produced a summary (unread count positive); and the cap does not affect
how many spaces are scanned. -/
theorem conversations_capped (fromiso : String → Option Int)
    (all_spaces : List SpaceEntry) (dms sps : Bool) (mr : Nat) :
    (get_unread_conversations_tool fromiso all_spaces dms sps mr).conversations.length
      = min ((all_spaces.filter (fun e => passesFilter dms sps e
          && (checkSpace fromiso e).isSome)).length) mr
    ∧ ∀ mr2 : Nat,
      (get_unread_conversations_tool fromiso all_spaces dms sps mr).total_spaces_scanned
        = (get_unread_conversations_tool fromiso all_spaces dms sps mr2).total_spaces_scanned := by
  constructor
  · rw [get_unread_conversations_tool_eq]
    dsimp only
    rw [List.length_take, List.length_insertionSort, scanSpacesLoop_convs,
      length_filterMap_checkSpace, Nat.min_comm]
  · intro mr2
    rw [get_unread_conversations_tool_eq, get_unread_conversations_tool_eq]

/-- C6: the returned conversations are the stable descending sort of the
collected summaries truncated to the cap after sorting; the result is
pairwise descending in unread count, and for each unread count the
summaries keep their scan order (stability). -/
theorem conversations_sorted_stable (fromiso : String → Option Int)
    (all_spaces : List SpaceEntry) (dms sps : Bool) (mr : Nat) :
    (get_unread_conversations_tool fromiso all_spaces dms sps mr).conversations
      = (((scanSpacesLoop fromiso dms sps all_spaces (0, [])).2).insertionSort
          unreadGE).take mr
    ∧ List.Pairwise unreadGE
        (get_unread_conversations_tool fromiso all_spaces dms sps mr).conversations
    ∧ ∀ k : Nat,
      (((scanSpacesLoop fromiso dms sps all_spaces (0, [])).2.insertionSort
          unreadGE).filter (fun c => c.unread_count == k))
        = ((scanSpacesLoop fromiso dms sps all_spaces (0, [])).2.filter
          (fun c => c.unread_count == k)) := by
  refine ⟨?_, ?_, ?_⟩
  · rw [get_unread_conversations_tool_eq]
  · rw [get_unread_conversations_tool_eq]
    dsimp only
    have hs := List.sorted_insertionSort unreadGE
      ((scanSpacesLoop fromiso dms sps all_spaces (0, [])).2)
    exact List.Pairwise.sublist (List.take_sublist mr _) hs
  · intro k
    exact insertionSort_filter_stable k _

def c9EmptyText : Message :=
  { name := "m2", createTime := some "2024-01-01T00:00:00.000Z", text := "",
    space_displayName := none }

def c9Entry : SpaceEntry :=
  { name := some "spaces/a"
    spaceType := some "SPACE"
    displayName := some "A"
    readState := Fetch.ok none
    messages := Fetch.ok [c9EmptyText, wMsgA] }

/-- C9 counterexample: a space with unread messages whose first unread
message has empty text gets a summary whose preview is `None`, not the
message's (empty) full text, so the summary does not always carry a
preview taken from the first unread message's text. -/
theorem preview_counterexample :
    (checkSpace fromisoTable c9Entry).map (fun s => s.preview) = some none
    ∧ (checkSpace fromisoTable c9Entry).map (fun s => s.unread_count) = some 2
    ∧ (some (none : Option String) : Option (Option String)) ≠ some (some "") :=
  ⟨by decide, by decide, by decide⟩

/-- C9 as amended: the summary of a space with unread messages carries
`latest_message_time` equal to the first (most recent) unread message's
`createTime`, and a preview of that message's text — the full text when
at most 100 characters, its first 100 characters plus `...` when longer
— except that when that text is empty the preview is `None`. -/
theorem preview_of_first_unread (fromiso : String → Option Int) (e : SpaceEntry)
    (lastRead : Option String) (pre post : List Message) (m : Message) (ct : String)
    (t lr : Int)
    (hrs : e.readState = Fetch.ok lastRead)
    (hmsgs : e.messages = Fetch.ok (pre ++ m :: post))
    (hlr : _parse_timestamp fromiso (effectiveLastReadTime lastRead) = some lr)
    (hpre : ∀ x ∈ pre, isUnreadMessage fromiso (some lr) x = false)
    (hct : m.createTime = some ct) (hcne : ct ≠ "")
    (ht : _parse_timestamp fromiso ct = some t)
    (hlt : lr < t) :
    (checkSpace fromiso e).map (fun s => (s.preview, s.latest_message_time))
      = some ((if m.text = "" then none
          else some (m.text.take 100 ++ (if 100 < m.text.length then "..." else ""))),
        some ct) := by
  have hstep : unreadScanStep fromiso (some lr) (0, none, none) m
      = (1, some ct,
         if m.text = "" then none
         else some (m.text.take 100 ++ (if 100 < m.text.length then "..." else ""))) := by
    by_cases htx : m.text = "" <;> simp [unreadScanStep, hct, hcne, ht, hlt, htx]
  have hscan : scanMessages fromiso (some lr) (pre ++ m :: post)
      = (1 + (post.filter (isUnreadMessage fromiso (some lr))).length, some ct,
         if m.text = "" then none
         else some (m.text.take 100 ++ (if 100 < m.text.length then "..." else ""))) := by
    unfold scanMessages
    rw [List.foldl_append, foldl_unreadScanStep_of_none_unread fromiso (some lr) pre hpre,
      List.foldl_cons, hstep]
    have hcount := foldl_unreadScanStep_count fromiso (some lr) post
      (1, some ct,
       if m.text = "" then none
       else some (m.text.take 100 ++ (if 100 < m.text.length then "..." else "")))
    have hkeep := foldl_unreadScanStep_keeps_latest fromiso (some lr) post 1 ct
      (if m.text = "" then none
       else some (m.text.take 100 ++ (if 100 < m.text.length then "..." else "")))
    rcases hr : List.foldl (unreadScanStep fromiso (some lr))
        (1, some ct,
         if m.text = "" then none
         else some (m.text.take 100 ++ (if 100 < m.text.length then "..." else ""))) post
      with ⟨cnt, l2⟩
    rw [hr] at hcount hkeep
    simp only at hcount hkeep
    rw [hcount, hkeep]
  simp [checkSpace, hrs, hmsgs, hlr, hscan]

def wEntryPrev : SpaceEntry :=
  { name := some "spaces/p"
    spaceType := some "SPACE"
    displayName := some "P"
    readState := Fetch.ok (some "2024-01-01T00:00:00.000Z")
    messages := Fetch.ok [wMsgOld, wMsgA] }

/-- Witness for the amended C9: one read message followed by one unread
message with text `hello` yields that text as the preview and its
creation time as the latest message time. -/
theorem preview_of_first_unread_witness :
    _parse_timestamp fromisoTable
        (effectiveLastReadTime (some "2024-01-01T00:00:00.000Z")) = some 1704067200
    ∧ _parse_timestamp fromisoTable "2024-01-01T00:05:00.000Z" = some 1704067500
    ∧ ((1704067200 : Int) < 1704067500)
    ∧ (checkSpace fromisoTable wEntryPrev).map (fun s => (s.preview, s.latest_message_time))
        = some ((if wMsgA.text = "" then none
            else some (wMsgA.text.take 100 ++ (if 100 < wMsgA.text.length then "..." else ""))),
          some "2024-01-01T00:05:00.000Z") :=
  ⟨by decide, by decide, by decide,
    preview_of_first_unread fromisoTable wEntryPrev (some "2024-01-01T00:00:00.000Z")
      [wMsgOld] [] wMsgA "2024-01-01T00:05:00.000Z" 1704067500 1704067200 rfl rfl
      (by decide)
      (by
        intro x hx
        rcases List.mem_cons.mp hx with h | h
        · subst h; decide
        · cases h)
      rfl (by decide) (by decide) (by decide)⟩

/-- A space yields a summary exactly when both remote calls succeeded and
the unread count of its message window is positive (the `n` of the cap
theorem). -/
theorem checkSpace_isSome_iff (fromiso : String → Option Int) (e : SpaceEntry) :
    (checkSpace fromiso e).isSome = true
      ↔ ∃ lastRead msgs, e.readState = Fetch.ok lastRead ∧ e.messages = Fetch.ok msgs
          ∧ 0 < (scanMessages fromiso
              (_parse_timestamp fromiso (effectiveLastReadTime lastRead)) msgs).1 := by
  cases hr : e.readState with
  | err => simp [checkSpace, hr]
  | ok lastRead =>
    cases hm : e.messages with
    | err => simp [checkSpace, hr, hm]
    | ok msgs =>
      rcases hsc : scanMessages fromiso
          (_parse_timestamp fromiso (effectiveLastReadTime lastRead)) msgs with ⟨cnt, lt, pv⟩
      by_cases hpos : 0 < cnt
      · simp [checkSpace, hr, hm, hsc, hpos]
      · simp [checkSpace, hr, hm, hsc, hpos]
